import Mathlib

/-!
Shallow embedding of the classroom draw tool's core: the entity pool
(`StudentDataManager` in `src/js/modules/StudentDataManager.js`) and the
draw allocation engine (`CardDrawEngine` in `src/unnamed/part_001`).

Modelling conventions:
* JS numbers used as ids are modelled as `WithBot ℤ`; `⊥` stands for
  `-Infinity` (which arises from `Math.max()` over an empty spread in
  `addStudent`).  All other numeric values used by the core are integers
  or fractions, modelled as `ℕ` / `ℚ`.
* `Math.random()` results are passed in as explicit `ℚ` parameters
  (`0 ≤ u < 1` where the caller relies on the JS range).
* `new Date().toISOString()` timestamps are passed in as explicit `ℕ`
  parameters; `drawnAt : Option ℕ` with `none` for JS `null`.
* Event-listener callbacks are external and never touch core state; the
  engine's four notifications are modelled as explicit `Event` values
  returned alongside the new state.  The pool's own emits carry no state.
* JS truthiness on the fields that flow through `x || default`:
  a missing/empty string field is modelled as `""`, a missing/zero id as
  `0` (for numbers only `0` and `NaN` are falsy; `-Infinity` is truthy).
* `await this.simulateDrawDelay()` is the only suspension point inside
  `drawCard`; the code before it is `drawPhase1`, the code after it is
  `drawPhase2`, and the synchronous composition is `drawCard`.
* Value semantics: the source's draw record holds a live reference to the
  selected student object (whose drawn flag the commit has already
  flipped by the time the record is built); the model stores the
  selection-time snapshot instead.  Every property proved here inspects
  only ids, counts and flags of the pool itself, on which both agree.
-/

namespace CardDraw

/-- A JS number in id position: an integer or `-Infinity` (`⊥`). -/
abbrev StudentId := WithBot ℤ

/-- One roster member, as stored in `StudentDataManager.students`. -/
structure Student where
  id : StudentId
  name : String
  avatar : String
  rarity : String
  isDrawn : Bool
  drawnAt : Option ℕ
deriving DecidableEq

/-- Stand-in for the JS `undefined` a list lookup out of range would give;
unreachable under the hypotheses of every theorem that uses it. -/
def defaultStudent : Student :=
  { id := ((0 : ℤ) : StudentId), name := "", avatar := "", rarity := ""
  , isDrawn := false, drawnAt := none }

/-- One record of an import payload: the `{id, name, avatar, rarity}` shape
consumed by `importStudents` and produced by `exportStudents`.  Field
absence and JS-falsy values coincide behaviourally here (each field is
read exactly once, in `x || default` position), so absence is modelled as
`0` / `""`. -/
structure ImportRecord where
  id : StudentId
  name : String
  avatar : String
  rarity : String
deriving DecidableEq

/-- Argument of `importStudents`: either not an array (the
`Array.isArray` guard throws), or an array whose elements are records or
JS `null`/`undefined` (`none`), on which property access throws. -/
inductive ImportPayload where
  | notArray
  | arr (data : List (Option ImportRecord))

/-- Source `generateRarity`: a uniform random below 0.01 gives "SR",
below 0.10 gives "R", anything else "N". -/
def generateRarity (u : ℚ) : String :=
  if u < 1 / 100 then "SR" else if u < 1 / 10 then "R" else "N"

/-- The 49 predefined names of `initializeDefaultData`. -/
def studentNames : List String :=
  [ "丁俊博", "丁宇哲", "丁旭尧", "严晨瑞", "刘子轩", "刘易涵", "刘舒雅"
  , "吴岳阳", "喻言", "孙成梦", "张恒溢", "张烨琪", "彭特", "徐仁予"
  , "徐天佑", "徐嫣然", "方梓晨", "方瑜博", "方警妤", "方诗熳", "曾彦宇"
  , "李东霖", "李妙言", "李宇涵", "李诗璇", "李鑫悦", "李雨滋", "杨果"
  , "沈文轩", "熊梓嫣", "王俊杰", "王津瑜", "王润邦", "纪怀瑾", "罗昕怡"
  , "罗昕玥", "肖旭东", "胡楚昀", "胡诗雨", "蒋铭", "蔡国斌", "许锦程"
  , "谢雄涛", "谭钰泷", "陈泽扬", "陈浩东", "高夕乐", "高语", "龚泓菘" ]

/-- Source `this.defaultStudentCount = 49`. -/
def defaultStudentCount : ℕ := 49

/-- Source `getStudentAvatar`: all avatars are local jpg paths. -/
def getStudentAvatar (name : String) : String :=
  "./images/" ++ name ++ ".jpg"

/-- Source `initializeDefaultData`: 49 students with ids `1..49`, names from the
predefined list (fallback `同学${i+1}`), local avatar paths, random
rarity (randomness supplied by `gen`), undrawn. -/
def initializeDefaultData (gen : ℕ → ℚ) : List Student :=
  (List.range defaultStudentCount).map (fun i =>
    let name := studentNames.getD i ("同学" ++ toString (i + 1))
    { id := ((((i : ℤ) + 1)) : StudentId), name := name
    , avatar := getStudentAvatar name
    , rarity := generateRarity (gen i), isDrawn := false, drawnAt := none })

/-- Source `getAllStudents`: returns a copy of the roster (value semantics make
the copy the list itself). -/
def getAllStudents (students : List Student) : List Student := students

/-- Source `getStudentById`: first student with the given id, or `null`. -/
def getStudentById (students : List Student) (i : StudentId) : Option Student :=
  students.find? (fun s => s.id == i)

/-- Source `getAvailableStudents`: the undrawn students, in roster order. -/
def getAvailableStudents (students : List Student) : List Student :=
  students.filter (fun s => !s.isDrawn)

/-- Source `getDrawnStudents`: the drawn students, in roster order. -/
def getDrawnStudents (students : List Student) : List Student :=
  students.filter (fun s => s.isDrawn)

/-- In-place mutation of the object `getStudentById` found: mark the
first student with the given id drawn at time `t`. -/
def markFirst : List Student → StudentId → ℕ → List Student
  | [], _, _ => []
  | s :: rest, i, t =>
      if s.id = i then { s with isDrawn := true, drawnAt := some t } :: rest
      else s :: markFirst rest i t

/-- Source `markStudentAsDrawn`: succeeds (returns `true` and the mutated
roster) only when a student with the id exists and is not yet drawn;
otherwise returns `false` with the roster untouched. -/
def markStudentAsDrawn (students : List Student) (i : StudentId) (t : ℕ) :
    Bool × List Student :=
  match getStudentById students i with
  | some s => if s.isDrawn then (false, students) else (true, markFirst students i t)
  | none => (false, students)

/-- Source `resetAllStudents`: clears `isDrawn`/`drawnAt` on every student. -/
def resetAllStudents (students : List Student) : List Student :=
  students.map (fun s => { s with isDrawn := false, drawnAt := none })

/-- Renders an id the way JS string interpolation would. -/
def jsNumStr (i : StudentId) : String :=
  if i = ⊥ then "-Infinity" else toString (i.unbot' 0)

/-- The DiceBear default avatar URL used by `addStudent`/`importStudents`. -/
def dicebear (seed : String) : String :=
  "https://api.dicebear.com/7.x/avataaars/svg?seed=" ++ seed

/-- Source `addStudent`: `newId = Math.max(...ids) + 1` (`-Infinity + 1 =
-Infinity` on an empty roster), avatar defaulted when the argument is
falsy, fresh random rarity, pushed at the end; returns the new student. -/
def addStudent (students : List Student) (name : String) (avatar : String)
    (u : ℚ) : Student × List Student :=
  let newId : StudentId := (students.map (fun s => s.id)).foldl max ⊥ + 1
  let newStudent : Student :=
    { id := newId, name := name
    , avatar := if avatar = "" then dicebear (jsNumStr newId) else avatar
    , rarity := generateRarity u, isDrawn := false, drawnAt := none }
  (newStudent, students ++ [newStudent])

/-- Source `removeStudent`: drops the first student with the id; `false` when
absent. -/
def removeStudent (students : List Student) (i : StudentId) :
    Bool × List Student :=
  match students.findIdx? (fun s => s.id == i) with
  | some idx => (true, students.eraseIdx idx)
  | none => (false, students)

/-- Conversion of one import record at position `i` (0-based), exactly as
the `forEach` body of `importStudents` builds it: falsy fields are
defaulted, drawn state always cleared. -/
def convertRecord (gen : ℕ → ℚ) (i : ℕ) (d : ImportRecord) : Student :=
  { id := if d.id = ((0 : ℤ) : StudentId) then ((((i : ℤ) + 1)) : StudentId) else d.id
  , name := if d.name = "" then "学生" ++ toString (i + 1) ++ "号" else d.name
  , avatar := if d.avatar = "" then dicebear (toString (i + 1)) else d.avatar
  , rarity := if d.rarity = "" then generateRarity (gen i) else d.rarity
  , isDrawn := false, drawnAt := none }

/-- The `forEach` of `importStudents`: pushes converted records onto the
(already cleared) roster; property access on a `null` element throws,
ending the loop with `false` and the roster holding the converted
prefix. -/
def importLoop (gen : ℕ → ℚ) :
    List (Option ImportRecord) → ℕ → List Student → Bool × List Student
  | [], _, acc => (true, acc)
  | none :: _, _, acc => (false, acc)
  | some d :: rest, i, acc => importLoop gen rest (i + 1) (acc ++ [convertRecord gen i d])

/-- Source `importStudents`: a non-array payload throws before any mutation
(caught, `false`, roster unchanged); an array payload first clears the
roster, then converts element by element. -/
def importStudents (students : List Student) (payload : ImportPayload)
    (gen : ℕ → ℚ) : Bool × List Student :=
  match payload with
  | .notArray => (false, students)
  | .arr data => importLoop gen data 0 []

/-- Source `exportStudents`: projects each student to `{id, name, avatar,
rarity}` (drawn state intentionally excluded). -/
def exportStudents (students : List Student) : List ImportRecord :=
  students.map (fun s =>
    { id := s.id, name := s.name, avatar := s.avatar, rarity := s.rarity })

/-- Straight-line conversion of a records list starting at position `i`:
the roster contents `importLoop` accumulates. -/
def convertFrom (gen : ℕ → ℚ) : ℕ → List ImportRecord → List Student
  | _, [] => []
  | i, d :: ds => convertRecord gen i d :: convertFrom gen (i + 1) ds

/-! ### CardDrawEngine (`src/unnamed/part_001`) -/

/-- The closed set of draw modes (`this.drawModes`). -/
inductive DrawMode where
  | random
  | weighted
  | sequential
deriving DecidableEq

/-- One entry of `this.drawHistory` (`timestamp` determinised to the same
clock value the pool stamps). -/
structure DrawRecord where
  student : Student
  timestamp : ℕ
  mode : DrawMode
  remainingCount : ℕ
deriving DecidableEq

/-- The object a successful `drawCard` resolves with. -/
structure DrawSuccess where
  success : Bool
  student : Student
  drawRecord : DrawRecord
  remainingCount : ℕ
deriving DecidableEq

/-- The two errors `drawCard` can throw in the pure model: a draw already
in flight, or an empty available list. -/
inductive DrawErr where
  | busy
  | exhausted
deriving DecidableEq

/-- The engine's four notifications (`this.eventListeners` keys). -/
inductive Event where
  | drawStart (availableCount : ℕ)
  | drawComplete (student : Student) (record : DrawRecord) (remainingCount : ℕ)
  | drawError (err : DrawErr)
  | resetComplete (totalCount : ℕ)
deriving DecidableEq

/-- The default `this.rarityWeights`: N 1.0, R 0.5, SR 0.1. -/
def defaultRarityWeights : List (String × ℚ) :=
  [("N", 1), ("R", 1 / 2), ("SR", 1 / 10)]

/-- Source `this.rarityWeights[rarity] || 1`: absent keys give `undefined`, a
zero weight is falsy; both fall back to 1. -/
def weightLookup (w : List (String × ℚ)) (r : String) : ℚ :=
  match w.lookup r with
  | some q => if q = 0 then 1 else q
  | none => 1

/-- The `reduce` computing `totalWeight` in `weightedDraw`. -/
def totalWeight (w : List (String × ℚ)) (l : List Student) : ℚ :=
  l.foldl (fun acc s => acc + weightLookup w s.rarity) 0

/-- The `for` loop of `weightedDraw`: subtract each weight from the
running random value, return the first student at which it is `≤ 0`. -/
def weightedLoop (w : List (String × ℚ)) : List Student → ℚ → Option Student
  | [], _ => none
  | s :: rest, r =>
      let rNext := r - weightLookup w s.rarity
      if rNext ≤ 0 then some s else weightedLoop w rest rNext

/-- Source `weightedDraw`: walk with `random = u * totalWeight`; fall back to
the last student when the loop exhausts the list. -/
def weightedDraw (w : List (String × ℚ)) (avail : List Student) (u : ℚ) : Student :=
  match weightedLoop w avail (u * totalWeight w avail) with
  | some s => s
  | none => avail.getLastD defaultStudent

/-- Source `randomDraw`: `availableStudents[Math.floor(u * length)]`. -/
def randomDraw (avail : List Student) (u : ℚ) : Student :=
  avail.getD (⌊u * (avail.length : ℚ)⌋.toNat) defaultStudent

/-- The sort comparator `(a, b) => a.id - b.id`: ascending by id. -/
def idLe (a b : Student) : Prop := a.id ≤ b.id

instance : DecidableRel idLe := fun a b => inferInstanceAs (Decidable (a.id ≤ b.id))

instance : IsTotal Student idLe := ⟨fun a b => le_total a.id b.id⟩

instance : IsTrans Student idLe := ⟨fun _ _ _ h h2 => le_trans h h2⟩

/-- Source `availableStudents.sort((a, b) => a.id - b.id)`. -/
def sortById (l : List Student) : List Student := List.insertionSort idLe l

/-- Source `sequentialDraw`: sort ascending by id and take the first. -/
def sequentialDraw (avail : List Student) : Student :=
  (sortById avail).headD defaultStudent

/-- The `switch (this.currentMode)` of `drawCard` (default: random). -/
def selectStudent (mode : DrawMode) (w : List (String × ℚ))
    (avail : List Student) (u : ℚ) : Student :=
  match mode with
  | .weighted => weightedDraw w avail u
  | .sequential => sequentialDraw avail
  | .random => randomDraw avail u

/-- The engine's state (`CardDrawEngine` fields that the core touches). -/
structure Engine where
  students : List Student
  drawHistory : List DrawRecord
  isDrawing : Bool
  currentMode : DrawMode
  rarityWeights : List (String × ℚ)
deriving DecidableEq

/-- A fresh engine over a given roster (constructor of `CardDrawEngine`
with the mode/weights configuration made explicit). -/
def mkEngine (students : List Student) (mode : DrawMode)
    (w : List (String × ℚ)) : Engine :=
  { students := students, drawHistory := [], isDrawing := false
  , currentMode := mode, rarityWeights := w }

/-- Source `drawCard` up to (and excluding) `await this.simulateDrawDelay()`:
busy check (throws with no event), availability check (emits `draw-error`
and throws), `isDrawing = true`, `draw-start`, selection, the
`markStudentAsDrawn` call whose result is discarded, and the history
push.  On success the returned record is what the continuation uses. -/
def drawPhase1 (e : Engine) (u : ℚ) (t : ℕ) :
    Except DrawErr DrawRecord × Engine × List Event :=
  if e.isDrawing then (.error .busy, e, [])
  else
    let avail := getAvailableStudents e.students
    if avail.length = 0 then (.error .exhausted, e, [.drawError .exhausted])
    else
      let sel := selectStudent e.currentMode e.rarityWeights avail u
      let students2 := (markStudentAsDrawn e.students sel.id t).2
      let record : DrawRecord :=
        { student := sel, timestamp := t, mode := e.currentMode
        , remainingCount := avail.length - 1 }
      (.ok record,
       { e with students := students2
              , drawHistory := e.drawHistory ++ [record], isDrawing := true },
       [.drawStart avail.length])

/-- Source `drawCard` after the delay: emit `draw-complete`, resolve with the
success object, and run the `finally` clearing `isDrawing`. -/
def drawPhase2 (e : Engine) (r : DrawRecord) :
    DrawSuccess × Engine × List Event :=
  ({ success := true, student := r.student, drawRecord := r
   , remainingCount := r.remainingCount },
   { e with isDrawing := false },
   [.drawComplete r.student r r.remainingCount])

/-- Source `drawCard` run to completion with nothing interleaved in the delay. -/
def drawCard (e : Engine) (u : ℚ) (t : ℕ) :
    Except DrawErr DrawSuccess × Engine × List Event :=
  match drawPhase1 e u t with
  | (.error err, e2, ev) => (.error err, e2, ev)
  | (.ok r, e2, ev) =>
      let (res, e3, ev2) := drawPhase2 e2 r
      (.ok res, e3, ev ++ ev2)

/-- Source `reset`: reset every student, clear history, clear the busy flag,
emit `reset-complete` with the total count. -/
def engineReset (e : Engine) : Engine × List Event :=
  let students2 := resetAllStudents e.students
  ({ e with students := students2, drawHistory := [], isDrawing := false },
   [.resetComplete (getAllStudents students2).length])

/-- A sequence of complete `drawCard` calls, one per supplied
(random, timestamp) pair; failed draws leave the state as they found
it. -/
def drawSeq (e : Engine) : List (ℚ × ℕ) → Engine
  | [] => e
  | p :: rest => drawSeq (drawCard e p.1 p.2).2.1 rest

/-- Source `getDrawHistory`: most recent first, optionally truncated. -/
def getDrawHistory (e : Engine) (limit : Option ℕ) : List DrawRecord :=
  let history := e.drawHistory.reverse
  match limit with
  | some n => history.take n
  | none => history

/-! ### Pool lemmas -/

/-- The drawn/available filters partition the roster's length. -/
theorem drawn_add_available_length (students : List Student) :
    (getDrawnStudents students).length + (getAvailableStudents students).length
      = (getAllStudents students).length := by
  induction students with
  | nil => rfl
  | cons s rest ih =>
      by_cases h : s.isDrawn <;>
        simp [getDrawnStudents, getAllStudents, getAvailableStudents,
          List.filter_cons, h] at ih ⊢ <;> omega

/-- Source `markFirst` changes no ids. -/
theorem markFirst_map_id (l : List Student) (i : StudentId) (t : ℕ) :
    (markFirst l i t).map (fun s => s.id) = l.map (fun s => s.id) := by
  induction l with
  | nil => rfl
  | cons s rest ih =>
      by_cases h : s.id = i <;> simp [markFirst, h, ih]

/-- Source `markFirst` never un-draws a student. -/
theorem markFirst_keeps_drawn {l : List Student} {x : Student}
    (hx : x ∈ l) (hd : x.isDrawn = true) (i : StudentId) (t : ℕ) :
    ∃ y ∈ markFirst l i t, y.id = x.id ∧ y.isDrawn = true := by
  induction l with
  | nil => cases hx
  | cons s rest ih =>
      rcases List.mem_cons.mp hx with rfl | hx2
      · by_cases h : x.id = i
        · exact ⟨{ x with isDrawn := true, drawnAt := some t },
            by simp [markFirst, h], rfl, rfl⟩
        · exact ⟨x, by simp [markFirst, h], rfl, hd⟩
      · by_cases h : s.id = i
        · exact ⟨x, by simp [markFirst, h, hx2], rfl, hd⟩
        · obtain ⟨y, hy, hyid, hyd⟩ := ih hx2
          exact ⟨y, by simp [markFirst, h]; right; exact hy, hyid, hyd⟩

/-- After `markFirst` at the id of a roster member, some student with
that id is drawn. -/
theorem markFirst_marks {l : List Student} {x : Student} (hx : x ∈ l)
    (i : StudentId) (hid : x.id = i) (t : ℕ) :
    ∃ y ∈ markFirst l i t, y.id = i ∧ y.isDrawn = true := by
  induction l with
  | nil => cases hx
  | cons s rest ih =>
      by_cases h : s.id = i
      · exact ⟨{ s with isDrawn := true, drawnAt := some t },
          by simp [markFirst, h], h, rfl⟩
      · rcases List.mem_cons.mp hx with rfl | hx2
        · exact absurd hid h
        · obtain ⟨y, hy, hyid, hyd⟩ := ih hx2
          exact ⟨y, by simp [markFirst, h]; right; exact hy, hyid, hyd⟩

/-- On a roster with unique ids, marking an undrawn member succeeds and
rewrites the roster with `markFirst`. -/
theorem mark_succeeds {students : List Student} {sel : Student}
    (hnodup : (students.map (fun s => s.id)).Nodup)
    (hmem : sel ∈ students) (hundrawn : sel.isDrawn = false) (t : ℕ) :
    markStudentAsDrawn students sel.id t = (true, markFirst students sel.id t) := by
  induction students with
  | nil => cases hmem
  | cons s rest ih =>
      by_cases h : s.id = sel.id
      · have hs : s = sel := by
          rcases List.mem_cons.mp hmem with rfl | hmem2
          · rfl
          · exfalso
            have : s.id ∉ rest.map (fun x => x.id) := by
              simpa using (List.nodup_cons.mp hnodup).1
            exact this (h ▸ List.mem_map_of_mem (fun x => x.id) hmem2)
        subst hs
        simp [markStudentAsDrawn, getStudentById, List.find?_cons, markFirst,
          hundrawn]
      · have hmem2 : sel ∈ rest := by
          rcases List.mem_cons.mp hmem with rfl | hmem2
          · exact absurd rfl h
          · exact hmem2
        have ihr := ih (List.nodup_cons.mp hnodup).2 hmem2
        have hbeq : (s.id == sel.id) = false := by
          simpa using h
        simp only [markStudentAsDrawn, getStudentById, List.find?_cons, hbeq,
          markFirst, if_neg h] at ihr ⊢
        rcases hfind : List.find? (fun x => x.id == sel.id) rest with _ | s2
        · simp [hfind] at ihr
        · simp only [hfind] at ihr ⊢
          by_cases hdrawn : s2.isDrawn
          · simp [hdrawn] at ihr
          · simp only [hdrawn] at ihr ⊢
            simp

/-! ### Selection lemmas -/

/-- The uniform pick lands inside the snapshot when `0 ≤ u < 1`. -/
theorem randomDraw_mem {avail : List Student} (hne : avail ≠ [])
    {u : ℚ} (_hu0 : 0 ≤ u) (hu1 : u < 1) : randomDraw avail u ∈ avail := by
  have hlen : 0 < avail.length := List.length_pos.mpr hne
  have hlt : ⌊u * (avail.length : ℚ)⌋ < (avail.length : ℤ) := by
    apply Int.floor_lt.mpr
    push_cast
    calc u * (avail.length : ℚ) < 1 * (avail.length : ℚ) := by
          exact mul_lt_mul_of_pos_right hu1 (by exact_mod_cast hlen)
      _ = (avail.length : ℚ) := one_mul _
  have hidx : (⌊u * (avail.length : ℚ)⌋).toNat < avail.length := by omega
  rw [randomDraw, List.getD_eq_getElem _ _ hidx]
  exact List.getElem_mem hidx

/-- The weighted walk only ever returns a member of its list. -/
theorem weightedLoop_mem {w : List (String × ℚ)} :
    ∀ {l : List Student} {r : ℚ} {s : Student},
      weightedLoop w l r = some s → s ∈ l := by
  intro l
  induction l with
  | nil => intro r s h; simp [weightedLoop] at h
  | cons x rest ih =>
      intro r s h
      simp only [weightedLoop] at h
      by_cases hc : r - weightLookup w x.rarity ≤ 0
      · simp [hc] at h
        simp [h]
      · simp [hc] at h
        exact List.mem_cons_of_mem x (ih h)

/-- The last element of a non-empty list is a member. -/
theorem getLastD_mem {l : List Student} (hne : l ≠ []) (d : Student) :
    l.getLastD d ∈ l := by
  rw [List.getLastD_eq_getLast? , List.getLast?_eq_getLast l hne, Option.getD_some]
  exact List.getLast_mem hne

/-- The weighted selection stays inside a non-empty snapshot. -/
theorem weightedDraw_mem {w : List (String × ℚ)} {avail : List Student}
    (hne : avail ≠ []) (u : ℚ) : weightedDraw w avail u ∈ avail := by
  rw [weightedDraw]
  rcases h : weightedLoop w avail (u * totalWeight w avail) with _ | s
  · exact getLastD_mem hne defaultStudent
  · exact weightedLoop_mem h

/-- The sequential selection is a member of the snapshot and has the
minimum id. -/
theorem sequentialDraw_min {avail : List Student} (hne : avail ≠ []) :
    sequentialDraw avail ∈ avail ∧
      ∀ x ∈ avail, (sequentialDraw avail).id ≤ x.id := by
  have hperm : List.Perm (sortById avail) avail := List.perm_insertionSort idLe avail
  have hsorted : List.Sorted idLe (sortById avail) :=
    List.sorted_insertionSort idLe avail
  have hne2 : sortById avail ≠ [] := by
    intro h
    exact hne (List.Perm.eq_nil (h ▸ hperm).symm)
  cases hl : sortById avail with
  | nil => exact absurd hl hne2
  | cons h0 tl =>
      have hhead : sequentialDraw avail = h0 := by
        simp [sequentialDraw, hl]
      rw [hl] at hperm hsorted
      constructor
      · rw [hhead]
        exact hperm.mem_iff.mp (List.mem_cons_self h0 tl)
      · intro x hx
        rw [hhead]
        rcases List.mem_cons.mp (hperm.mem_iff.mpr hx) with rfl | hx2
        · exact le_refl _
        · exact (List.sorted_cons.mp hsorted).1 x hx2

/-- Whatever the mode, a selection from a non-empty snapshot is a member
of the snapshot. -/
theorem selectStudent_mem {mode : DrawMode} {w : List (String × ℚ)}
    {avail : List Student} (hne : avail ≠ []) {u : ℚ}
    (hu0 : 0 ≤ u) (hu1 : u < 1) :
    selectStudent mode w avail u ∈ avail := by
  cases mode with
  | random => exact randomDraw_mem hne hu0 hu1
  | weighted => exact weightedDraw_mem hne u
  | sequential => exact (sequentialDraw_min hne).1

/-- Members of the available snapshot are undrawn roster members. -/
theorem mem_available {students : List Student} {s : Student}
    (h : s ∈ getAvailableStudents students) :
    s ∈ students ∧ s.isDrawn = false := by
  have h2 := List.mem_filter.mp h
  refine ⟨h2.1, by simpa using h2.2⟩

end CardDraw


namespace CardDraw

/-! ### Engine lemmas -/

/-- A busy engine rejects the draw before any event is emitted and
without touching state. -/
theorem drawCard_busy {e : Engine} (h : e.isDrawing = true) (u : ℚ) (t : ℕ) :
    drawCard e u t = (.error .busy, e, []) := by
  simp [drawCard, drawPhase1, h]

/-- An idle engine with an empty available snapshot fails with the
exhaustion error, emitting exactly the `draw-error` notification and
leaving state untouched. -/
theorem drawCard_exhausted {e : Engine} (h : e.isDrawing = false)
    (h2 : getAvailableStudents e.students = []) (u : ℚ) (t : ℕ) :
    drawCard e u t = (.error .exhausted, e, [.drawError .exhausted]) := by
  simp [drawCard, drawPhase1, h, h2]

/-- Full characterisation of a draw from an idle engine with a non-empty
snapshot and unique roster ids: the selection's commit succeeds, the
record is appended, and start/complete notifications are emitted. -/
theorem drawCard_success_eq (e : Engine) (u : ℚ) (t : ℕ)
    (hnodup : (e.students.map (fun s => s.id)).Nodup)
    (hidle : e.isDrawing = false)
    (hne : getAvailableStudents e.students ≠ [])
    (hu0 : 0 ≤ u) (hu1 : u < 1) :
    (markStudentAsDrawn e.students
        (selectStudent e.currentMode e.rarityWeights
          (getAvailableStudents e.students) u).id t).1 = true ∧
    drawCard e u t =
      (.ok { success := true
           , student := selectStudent e.currentMode e.rarityWeights
               (getAvailableStudents e.students) u
           , drawRecord :=
               { student := selectStudent e.currentMode e.rarityWeights
                   (getAvailableStudents e.students) u
               , timestamp := t, mode := e.currentMode
               , remainingCount := (getAvailableStudents e.students).length - 1 }
           , remainingCount := (getAvailableStudents e.students).length - 1 },
       { e with students :=
                  markFirst e.students
                    (selectStudent e.currentMode e.rarityWeights
                      (getAvailableStudents e.students) u).id t
              , drawHistory :=
                  e.drawHistory ++
                    [{ student := selectStudent e.currentMode e.rarityWeights
                         (getAvailableStudents e.students) u
                     , timestamp := t, mode := e.currentMode
                     , remainingCount := (getAvailableStudents e.students).length - 1 }]
              , isDrawing := false },
       [.drawStart (getAvailableStudents e.students).length,
        .drawComplete (selectStudent e.currentMode e.rarityWeights
            (getAvailableStudents e.students) u)
          { student := selectStudent e.currentMode e.rarityWeights
              (getAvailableStudents e.students) u
          , timestamp := t, mode := e.currentMode
          , remainingCount := (getAvailableStudents e.students).length - 1 }
          ((getAvailableStudents e.students).length - 1)]) := by
  have hsel := @selectStudent_mem e.currentMode e.rarityWeights
    (getAvailableStudents e.students) hne u hu0 hu1
  obtain ⟨hmem, hundrawn⟩ := mem_available hsel
  have hmark := mark_succeeds hnodup hmem hundrawn t
  have hlen : (getAvailableStudents e.students).length ≠ 0 := by
    simpa [List.length_eq_zero] using hne
  refine ⟨by rw [hmark], ?_⟩
  simp only [drawCard, drawPhase1, hidle, hlen, if_false, Bool.false_eq_true,
    hmark, drawPhase2]
  rfl

end CardDraw

namespace CardDraw

/-- Invariant tying the draw history to the pool: unique roster ids,
idle engine, no id recorded twice, every recorded id drawn in the
roster. -/
def EngineInv (e : Engine) : Prop :=
  (e.students.map (fun s => s.id)).Nodup ∧
  e.isDrawing = false ∧
  (e.drawHistory.map (fun r => r.student.id)).Nodup ∧
  ∀ r ∈ e.drawHistory, ∃ s ∈ e.students, s.id = r.student.id ∧ s.isDrawn = true

/-- One complete `drawCard` call preserves the invariant. -/
theorem drawCard_inv {e : Engine} (hI : EngineInv e) {u : ℚ}
    (hu0 : 0 ≤ u) (hu1 : u < 1) (t : ℕ) :
    EngineInv (drawCard e u t).2.1 := by
  obtain ⟨hn, hidle, hhn, hwit⟩ := hI
  by_cases hne : getAvailableStudents e.students = []
  · rw [drawCard_exhausted hidle hne]
    exact ⟨hn, hidle, hhn, hwit⟩
  · obtain ⟨hmark, hdc⟩ := drawCard_success_eq e u t hn hidle hne hu0 hu1
    rw [hdc]
    set sel := selectStudent e.currentMode e.rarityWeights
      (getAvailableStudents e.students) u with hsel
    obtain ⟨selmem, selundrawn⟩ :=
      mem_available (@selectStudent_mem e.currentMode e.rarityWeights
        (getAvailableStudents e.students) hne u hu0 hu1)
    unfold EngineInv
    refine ⟨?_, rfl, ?_, ?_⟩
    · simpa [markFirst_map_id] using hn
    · simp only [List.map_append, List.map_cons, List.map_nil]
      refine List.nodup_append.mpr ⟨hhn, List.nodup_singleton _, ?_⟩
      intro x hx1 hx2
      simp only [List.mem_singleton] at hx2
      subst hx2
      obtain ⟨r, hr, hrid⟩ := List.mem_map.mp hx1
      obtain ⟨s, smem, sid, sdrawn⟩ := hwit r hr
      have : s = sel :=
        List.inj_on_of_nodup_map hn smem selmem (by rw [sid, hrid])
      rw [this] at sdrawn
      rw [selundrawn] at sdrawn
      cases sdrawn
    · intro r hr
      rcases List.mem_append.mp hr with hold | hnew
      · obtain ⟨s, smem, sid, sdrawn⟩ := hwit r hold
        obtain ⟨y, ymem, yid, ydrawn⟩ :=
          markFirst_keeps_drawn smem sdrawn sel.id t
        exact ⟨y, ymem, by rw [yid, sid], ydrawn⟩
      · simp only [List.mem_singleton] at hnew
        subst hnew
        obtain ⟨y, ymem, yid, ydrawn⟩ := markFirst_marks selmem sel.id rfl t
        exact ⟨y, ymem, yid, ydrawn⟩

/-- A whole sequence of draws preserves the invariant. -/
theorem drawSeq_inv {e : Engine} (hI : EngineInv e) :
    ∀ {inputs : List (ℚ × ℕ)},
      (∀ p ∈ inputs, 0 ≤ p.1 ∧ p.1 < 1) → EngineInv (drawSeq e inputs) := by
  intro inputs
  induction inputs generalizing e with
  | nil => intro _; exact hI
  | cons p rest ih =>
      intro hins
      have hp := hins p (List.mem_cons_self p rest)
      exact ih (drawCard_inv hI hp.1 hp.2 p.2)
        (fun q hq => hins q (List.mem_cons_of_mem p hq))

end CardDraw

namespace CardDraw

/-- C4: on a fresh roster (unique ids, nothing drawn), any sequence of
`drawCard` calls — continued past exhaustion or not — yields a history
in which every entity id appears at most once; and in every pool state
(hence after every operation) `listDrawn().length + listAvailable().length
== listAll().length`. -/
theorem no_repeat_and_partition :
    (∀ students : List Student,
        (getDrawnStudents students).length + (getAvailableStudents students).length
          = (getAllStudents students).length) ∧
    (∀ (roster : List Student) (mode : DrawMode) (w : List (String × ℚ))
        (inputs : List (ℚ × ℕ)),
        (roster.map (fun s => s.id)).Nodup →
        (∀ s ∈ roster, s.isDrawn = false) →
        (∀ p ∈ inputs, 0 ≤ p.1 ∧ p.1 < 1) →
        ((drawSeq (mkEngine roster mode w) inputs).drawHistory.map
            (fun r => r.student.id)).Nodup) := by
  constructor
  · exact drawn_add_available_length
  · intro roster mode w inputs hnodup _hfresh hins
    have hI : EngineInv (mkEngine roster mode w) :=
      ⟨hnodup, rfl, List.nodup_nil, fun r hr => absurd hr (List.not_mem_nil r)⟩
    exact (drawSeq_inv hI hins).2.2.1

def c4Roster : List Student :=
  [ { id := ((1 : ℤ) : StudentId), name := "甲", avatar := "a", rarity := "N"
    , isDrawn := false, drawnAt := none }
  , { id := ((2 : ℤ) : StudentId), name := "乙", avatar := "b", rarity := "R"
    , isDrawn := false, drawnAt := none } ]

/-- Witness for C4 at a concrete two-student roster and two draws. -/
theorem no_repeat_and_partition_witness :
    ((getDrawnStudents c4Roster).length + (getAvailableStudents c4Roster).length
        = (getAllStudents c4Roster).length) ∧
    ((drawSeq (mkEngine c4Roster .sequential []) [((0 : ℚ), 1), ((0 : ℚ), 2)]).drawHistory.map
        (fun r => r.student.id)).Nodup :=
  ⟨no_repeat_and_partition.1 c4Roster,
   no_repeat_and_partition.2 c4Roster .sequential [] [((0 : ℚ), 1), ((0 : ℚ), 2)]
     (by decide) (by decide)
     (by
       intro p hp
       have h01 : (0 : ℚ) ≤ 0 ∧ (0 : ℚ) < 1 := ⟨le_refl 0, zero_lt_one⟩
       rcases List.mem_cons.mp hp with rfl | hp2
       · exact h01
       · rcases List.mem_cons.mp hp2 with rfl | hp3
         · exact h01
         · cases hp3)⟩

end CardDraw

namespace CardDraw

def c6Roster : List Student :=
  [ { id := ((5 : ℤ) : StudentId), name := "a", avatar := "a", rarity := "N"
    , isDrawn := false, drawnAt := none }
  , { id := ((3 : ℤ) : StudentId), name := "b", avatar := "b", rarity := "N"
    , isDrawn := false, drawnAt := none }
  , { id := ((8 : ℤ) : StudentId), name := "c", avatar := "c", rarity := "N"
    , isDrawn := false, drawnAt := none }
  , { id := ((1 : ℤ) : StudentId), name := "d", avatar := "d", rarity := "N"
    , isDrawn := false, drawnAt := none } ]

/-- C6: under the sequential policy every draw from a non-empty snapshot
returns an entity of the snapshot with the minimum id; and drawing the
roster with ids `{5,3,8,1}` to exhaustion yields the history order
exactly `1,3,5,8`. -/
theorem sequential_min_and_order :
    (∀ avail : List Student, avail ≠ [] →
        sequentialDraw avail ∈ avail ∧
          ∀ x ∈ avail, (sequentialDraw avail).id ≤ x.id) ∧
    ((drawSeq (mkEngine c6Roster .sequential [])
        [((0 : ℚ), 1), ((0 : ℚ), 2), ((0 : ℚ), 3), ((0 : ℚ), 4)]).drawHistory.map
          (fun r => r.student.id))
      = [((1 : ℤ) : StudentId), ((3 : ℤ) : StudentId),
         ((5 : ℤ) : StudentId), ((8 : ℤ) : StudentId)] := by
  constructor
  · intro avail hne
    exact sequentialDraw_min hne
  · decide

/-- Witness for C6 at its concrete roster. -/
theorem sequential_min_and_order_witness :
    sequentialDraw c6Roster ∈ c6Roster ∧
      ∀ x ∈ c6Roster, (sequentialDraw c6Roster).id ≤ x.id :=
  sequential_min_and_order.1 c6Roster (by decide)

end CardDraw

namespace CardDraw

/-- Running total of the first `k` weights of the snapshot (the value the
walk has subtracted after visiting `k` entities). -/
def cumWeight (w : List (String × ℚ)) (l : List Student) (k : ℕ) : ℚ :=
  ((l.take k).map (fun s => weightLookup w s.rarity)).sum

theorem cumWeight_zero (w : List (String × ℚ)) (l : List Student) :
    cumWeight w l 0 = 0 := by
  simp [cumWeight]

theorem cumWeight_cons_succ (w : List (String × ℚ)) (s : Student)
    (rest : List Student) (k : ℕ) :
    cumWeight w (s :: rest) (k + 1)
      = weightLookup w s.rarity + cumWeight w rest k := by
  simp [cumWeight]

/-- The `reduce` in `weightedDraw` computes the sum of the per-entity
weights. -/
theorem totalWeight_eq_sum (w : List (String × ℚ)) (l : List Student) :
    totalWeight w l = (l.map (fun s => weightLookup w s.rarity)).sum := by
  have haux : ∀ (l2 : List Student) (c : ℚ),
      l2.foldl (fun acc s => acc + weightLookup w s.rarity) c
        = c + (l2.map (fun s => weightLookup w s.rarity)).sum := by
    intro l2
    induction l2 with
    | nil => intro c; simp
    | cons x rest ih =>
        intro c
        simp [ih, add_assoc]
  simpa [totalWeight] using haux l 0

/-- The walk stops at the first position whose running total absorbs the
random value. -/
theorem weightedLoop_first (w : List (String × ℚ)) :
    ∀ (l : List Student) (r : ℚ) (i : ℕ), i < l.length →
      r ≤ cumWeight w l (i + 1) →
      (∀ j < i, cumWeight w l (j + 1) < r) →
      weightedLoop w l r = some (l.getD i defaultStudent) := by
  intro l
  induction l with
  | nil =>
      intro r i hi
      exact absurd hi (Nat.not_lt_zero i)
  | cons s rest ih =>
      intro r i hi hle hgt
      cases i with
      | zero =>
          have h1 : r ≤ weightLookup w s.rarity := by
            have := hle
            rw [cumWeight_cons_succ, cumWeight_zero, add_zero] at this
            exact this
          have hstop : r - weightLookup w s.rarity ≤ 0 := by linarith
          simp [weightedLoop, hstop, List.getD]
      | succ i2 =>
          have h0 : cumWeight w (s :: rest) 1 < r :=
            hgt 0 (Nat.succ_pos i2)
          have hw : weightLookup w s.rarity < r := by
            rw [cumWeight_cons_succ, cumWeight_zero, add_zero] at h0
            exact h0
          have hnostop : ¬ (r - weightLookup w s.rarity ≤ 0) := by linarith
          have hrec := ih (r - weightLookup w s.rarity) i2
            (Nat.lt_of_succ_lt_succ hi)
            (by
              rw [cumWeight_cons_succ] at hle
              linarith)
            (by
              intro j hj
              have := hgt (j + 1) (Nat.succ_lt_succ hj)
              rw [cumWeight_cons_succ] at this
              linarith)
          simp only [weightedLoop, hnostop, if_false]
          simpa [List.getD] using hrec

/-- When every running total stays below the random value, the walk
exhausts the list. -/
theorem weightedLoop_exhausts (w : List (String × ℚ)) :
    ∀ (l : List Student) (r : ℚ),
      (∀ i < l.length, cumWeight w l (i + 1) < r) →
      weightedLoop w l r = none := by
  intro l
  induction l with
  | nil => intro r _; rfl
  | cons s rest ih =>
      intro r hall
      have h0 := hall 0 (Nat.succ_pos rest.length)
      have hw : weightLookup w s.rarity < r := by
        rw [cumWeight_cons_succ, cumWeight_zero, add_zero] at h0
        exact h0
      have hnostop : ¬ (r - weightLookup w s.rarity ≤ 0) := by linarith
      have hrec := ih (r - weightLookup w s.rarity)
        (by
          intro i hi
          have := hall (i + 1) (Nat.succ_lt_succ hi)
          rw [cumWeight_cons_succ] at this
          linarith)
      simp only [weightedLoop, hnostop, if_false]
      exact hrec

/-- C5: with `R = u * W` (`W` the sum of the configured per-entity
weights, unknown or zero-weight rarities falling back to 1 as the code's
`|| 1` does), the weighted selection walks the snapshot in order
subtracting each weight from `R` and returns the first entity at which
`R ≤ 0` — that is, the first position `i` whose running total reaches
`R`; if every running total stays below `R`, the last entity of the
snapshot is returned as fallback. -/
theorem weighted_walk_spec (w : List (String × ℚ)) (S : List Student)
    (u : ℚ) (_hS : S ≠ []) :
    totalWeight w S = (S.map (fun s => weightLookup w s.rarity)).sum ∧
    (∀ i, i < S.length →
        u * totalWeight w S ≤ cumWeight w S (i + 1) →
        (∀ j < i, cumWeight w S (j + 1) < u * totalWeight w S) →
        weightedDraw w S u = S.getD i defaultStudent) ∧
    ((∀ i < S.length, cumWeight w S (i + 1) < u * totalWeight w S) →
        weightedDraw w S u = S.getLastD defaultStudent) := by
  refine ⟨totalWeight_eq_sum w S, ?_, ?_⟩
  · intro i hi hle hgt
    rw [weightedDraw, weightedLoop_first w S (u * totalWeight w S) i hi hle hgt]
  · intro hall
    rw [weightedDraw, weightedLoop_exhausts w S (u * totalWeight w S) hall]

def c5Snapshot : List Student :=
  [ { id := ((1 : ℤ) : StudentId), name := "甲", avatar := "a", rarity := "N"
    , isDrawn := false, drawnAt := none }
  , { id := ((2 : ℤ) : StudentId), name := "乙", avatar := "b", rarity := "SR"
    , isDrawn := false, drawnAt := none } ]

/-- Witness for C5: with `u = 0` the walk stops at the first entity. -/
theorem weighted_walk_spec_witness :
    weightedDraw [] c5Snapshot 0 = c5Snapshot.getD 0 defaultStudent :=
  (weighted_walk_spec [] c5Snapshot 0 (by decide)).2.1 0 (by decide)
    (by
      rw [zero_mul]
      simp [c5Snapshot, cumWeight, weightLookup])
    (fun j hj => absurd hj (Nat.not_lt_zero j))

end CardDraw

namespace CardDraw

def c1Payload : ImportPayload :=
  .arr [ some { id := ((1 : ℤ) : StudentId), name := "甲", avatar := "a", rarity := "N" }
       , some { id := ((1 : ℤ) : StudentId), name := "乙", avatar := "b", rarity := "N" } ]

def c1Engine : Engine :=
  mkEngine
    (markStudentAsDrawn (importStudents [] c1Payload (fun _ => 0)).2
      ((1 : ℤ) : StudentId) 3).2
    .sequential []

def c1Stale : Student :=
  { id := ((1 : ℤ) : StudentId), name := "乙", avatar := "b", rarity := "N"
  , isDrawn := false, drawnAt := none }

/-- Counterexample to C1 as stated: in a reachable state (an imported
roster with duplicated id 1, whose first copy is already drawn), the
draw's `markStudentAsDrawn` call fails, yet `drawCard` still reports
success, appends the history record, emits `draw-complete`, and leaves
the pool unmutated — there is no `CommitConflict` path. -/
theorem commit_conflict_counterexample :
    (markStudentAsDrawn c1Engine.students ((1 : ℤ) : StudentId) 9).1 = false ∧
    (drawCard c1Engine 0 9).1.isOk = true ∧
    (drawCard c1Engine 0 9).2.1.drawHistory.map (fun r => r.student.id)
      = [((1 : ℤ) : StudentId)] ∧
    (drawCard c1Engine 0 9).2.1.students = c1Engine.students ∧
    (drawCard c1Engine 0 9).2.2
      = [.drawStart 1,
         .drawComplete c1Stale
           { student := c1Stale, timestamp := 9, mode := .sequential
           , remainingCount := 0 } 0] := by
  refine ⟨by decide, by decide, by decide, by decide, by decide⟩

/-- C1 (amended): `drawCard` never consults the result of
`markStudentAsDrawn`, so atomicity holds only because the commit cannot
fail when roster ids are unique: a draw from an idle engine with a
non-empty snapshot then fully completes — the commit succeeds, the
record for the selected entity is appended, the entity is drawn in the
new pool state, the start/complete notifications fire, and the engine
returns to idle. -/
theorem commit_atomicity (e : Engine) (u : ℚ) (t : ℕ)
    (hnodup : (e.students.map (fun s => s.id)).Nodup)
    (hidle : e.isDrawing = false)
    (hne : getAvailableStudents e.students ≠ [])
    (hu0 : 0 ≤ u) (hu1 : u < 1)
    {sel : Student}
    (hsel : sel = selectStudent e.currentMode e.rarityWeights
        (getAvailableStudents e.students) u) :
    (markStudentAsDrawn e.students sel.id t).1 = true ∧
    (drawCard e u t).1.isOk = true ∧
    (drawCard e u t).2.1.drawHistory
      = e.drawHistory ++
          [{ student := sel, timestamp := t, mode := e.currentMode
           , remainingCount := (getAvailableStudents e.students).length - 1 }] ∧
    (∃ s2 ∈ (drawCard e u t).2.1.students, s2.id = sel.id ∧ s2.isDrawn = true) ∧
    (drawCard e u t).2.2
      = [.drawStart (getAvailableStudents e.students).length,
         .drawComplete sel
           { student := sel, timestamp := t, mode := e.currentMode
           , remainingCount := (getAvailableStudents e.students).length - 1 }
           ((getAvailableStudents e.students).length - 1)] ∧
    (drawCard e u t).2.1.isDrawing = false := by
  subst hsel
  obtain ⟨hmark, hdc⟩ := drawCard_success_eq e u t hnodup hidle hne hu0 hu1
  obtain ⟨selmem, _⟩ :=
    mem_available (@selectStudent_mem e.currentMode e.rarityWeights
      (getAvailableStudents e.students) hne u hu0 hu1)
  rw [hdc]
  refine ⟨hmark, rfl, rfl, ?_, rfl, rfl⟩
  exact markFirst_marks selmem _ rfl t

def c1FreshRoster : List Student :=
  [ { id := ((1 : ℤ) : StudentId), name := "甲", avatar := "a", rarity := "N"
    , isDrawn := false, drawnAt := none }
  , { id := ((2 : ℤ) : StudentId), name := "乙", avatar := "b", rarity := "N"
    , isDrawn := false, drawnAt := none } ]

/-- Witness for the amended C1 at a concrete unique-id roster. -/
theorem commit_atomicity_witness :
    (markStudentAsDrawn c1FreshRoster
        (selectStudent .sequential [] (getAvailableStudents c1FreshRoster) 0).id 5).1
      = true ∧
    (drawCard (mkEngine c1FreshRoster .sequential []) 0 5).1.isOk = true := by
  have h := commit_atomicity (mkEngine c1FreshRoster .sequential []) 0 5
    (by decide) rfl (by decide) (le_refl 0) zero_lt_one rfl
  exact ⟨h.1, h.2.1⟩

end CardDraw

namespace CardDraw

def c2Engine : Engine :=
  mkEngine
    [ { id := ((1 : ℤ) : StudentId), name := "丙", avatar := "a", rarity := "N"
      , isDrawn := false, drawnAt := none }
    , { id := ((2 : ℤ) : StudentId), name := "丁", avatar := "b", rarity := "N"
      , isDrawn := false, drawnAt := none } ]
    .sequential []

def c2Stale : Student :=
  { id := ((1 : ℤ) : StudentId), name := "丙", avatar := "a", rarity := "N"
  , isDrawn := false, drawnAt := none }

/-- Counterexample to C2 as stated: there is no re-validation before
commit — the commit is applied synchronously with selection, before the
scheduling gap even starts.  Concretely, when the gap begins (right
after `drawPhase1`) the selected entity is already marked drawn, and
after a `reset()` in the gap the stale draw still resolves with
`success = true` instead of being rejected as a conflict. -/
theorem reset_revalidation_counterexample :
    (drawPhase1 c2Engine 0 7).1
      = Except.ok { student := c2Stale, timestamp := 7, mode := .sequential
                  , remainingCount := 1 } ∧
    (∃ s ∈ (drawPhase1 c2Engine 0 7).2.1.students,
        s.id = ((1 : ℤ) : StudentId) ∧ s.isDrawn = true) ∧
    (drawPhase2 (engineReset (drawPhase1 c2Engine 0 7).2.1).1
        { student := c2Stale, timestamp := 7, mode := .sequential
        , remainingCount := 1 }).1.success = true := by
  refine ⟨by rfl, by decide, by decide⟩

/-- C2 (amended): selection and commit are synchronous, with no
re-validation; a `reset()` invoked during the scheduling gap (which
follows the commit) clears the drawn marks and the history, and the
stale draw's continuation merely emits its completion and reports
success.  The final state therefore holds no trace of the stale draw —
every entity is undrawn and the fresh cycle's history is empty — even
though its commit had been applied and was never rejected. -/
theorem reset_during_gap (e : Engine) (u : ℚ) (t : ℕ) (r : DrawRecord) :
    (∀ s ∈ (drawPhase2 (engineReset (drawPhase1 e u t).2.1).1 r).2.1.students,
        s.isDrawn = false ∧ s.drawnAt = none) ∧
    (drawPhase2 (engineReset (drawPhase1 e u t).2.1).1 r).2.1.drawHistory = [] ∧
    (drawPhase2 (engineReset (drawPhase1 e u t).2.1).1 r).1.success = true := by
  refine ⟨?_, rfl, rfl⟩
  intro s hs
  have hs2 : s ∈ ((drawPhase1 e u t).2.1.students).map
      (fun x => { x with isDrawn := false, drawnAt := none }) := hs
  obtain ⟨x, _, hx⟩ := List.mem_map.mp hs2
  rw [← hx]
  exact ⟨rfl, rfl⟩

/-- Witness for the amended C2 at a concrete state and pending record. -/
theorem reset_during_gap_witness :
    (drawPhase2 (engineReset (drawPhase1 c2Engine 0 7).2.1).1
        { student := c2Stale, timestamp := 7, mode := .sequential
        , remainingCount := 1 }).2.1.drawHistory = [] ∧
    ((c2Stale ∈ (drawPhase2 (engineReset (drawPhase1 c2Engine 0 7).2.1).1
        { student := c2Stale, timestamp := 7, mode := .sequential
        , remainingCount := 1 }).2.1.students) →
      (c2Stale.isDrawn = false ∧ c2Stale.drawnAt = none)) :=
  ⟨(reset_during_gap c2Engine 0 7
      { student := c2Stale, timestamp := 7, mode := .sequential
      , remainingCount := 1 }).2.1,
   fun hmem =>
    (reset_during_gap c2Engine 0 7
      { student := c2Stale, timestamp := 7, mode := .sequential
      , remainingCount := 1 }).1 c2Stale hmem⟩

end CardDraw

namespace CardDraw

def c3Busy : Engine :=
  { students :=
      [ { id := ((1 : ℤ) : StudentId), name := "戊", avatar := "a", rarity := "N"
        , isDrawn := false, drawnAt := none } ]
  , drawHistory := [], isDrawing := true, currentMode := .sequential
  , rarityWeights := [] }

def c3Exhausted : Engine :=
  mkEngine
    [ { id := ((1 : ℤ) : StudentId), name := "己", avatar := "a", rarity := "N"
      , isDrawn := true, drawnAt := some 1 } ]
    .sequential []

/-- Counterexample to C3 as stated: a `Busy` failure is thrown before the
event machinery, so no `draw-error` notification is emitted, and the
engine is left in its `Drawing` state rather than transitioning back to
idle. -/
theorem busy_failure_counterexample :
    (drawCard c3Busy 0 0).1 = Except.error DrawErr.busy ∧
    (drawCard c3Busy 0 0).2.2 = [] ∧
    (drawCard c3Busy 0 0).2.1.isDrawing = true := by
  refine ⟨rfl, rfl, rfl⟩

/-- C3 (amended): failures are reported synchronously to the caller, but
only the exhaustion failure emits a `draw-error` notification (carrying
its reason) and finds the engine idle; a `Busy` failure emits no
notification at all and leaves the engine state — including the
`Drawing` flag of the in-flight draw — untouched. -/
theorem failure_reporting (e : Engine) (u : ℚ) (t : ℕ) :
    (e.isDrawing = true → drawCard e u t = (.error .busy, e, [])) ∧
    (e.isDrawing = false → getAvailableStudents e.students = [] →
        drawCard e u t = (.error .exhausted, e, [.drawError .exhausted])) :=
  ⟨fun h => drawCard_busy h u t, fun h h2 => drawCard_exhausted h h2 u t⟩

/-- Witness for the amended C3 on a busy engine and an exhausted one. -/
theorem failure_reporting_witness :
    drawCard c3Busy 0 0 = (.error .busy, c3Busy, []) ∧
    drawCard c3Exhausted 0 0
      = (.error .exhausted, c3Exhausted, [.drawError .exhausted]) :=
  ⟨(failure_reporting c3Busy 0 0).1 rfl,
   (failure_reporting c3Exhausted 0 0).2 rfl (by decide)⟩

end CardDraw

namespace CardDraw

/-- The import loop over a null-free payload succeeds with the converted
records appended to the accumulator. -/
theorem importLoop_all_some (gen : ℕ → ℚ) :
    ∀ (l : List ImportRecord) (i : ℕ) (acc : List Student),
      importLoop gen (l.map some) i acc = (true, acc ++ convertFrom gen i l) := by
  intro l
  induction l with
  | nil => intro i acc; simp [importLoop, convertFrom]
  | cons d rest ih =>
      intro i acc
      simp only [List.map_cons, importLoop, convertFrom, ih, List.append_assoc,
        List.singleton_append]

/-- The import loop dies at the first null element, leaving the converted
prefix in the roster. -/
theorem importLoop_null (gen : ℕ → ℚ) :
    ∀ (pre : List ImportRecord) (rest : List (Option ImportRecord))
      (i : ℕ) (acc : List Student),
      importLoop gen (pre.map some ++ none :: rest) i acc
        = (false, acc ++ convertFrom gen i pre) := by
  intro pre
  induction pre with
  | nil => intro rest i acc; simp [importLoop, convertFrom]
  | cons d rest2 ih =>
      intro rest i acc
      simp only [List.map_cons, List.cons_append, importLoop, List.append_eq]
      rw [ih rest (i + 1) (acc ++ [convertRecord gen i d])]
      simp [convertFrom, List.append_assoc]

/-- Converting an exported roster whose fields are all truthy reproduces
the roster with the drawn state cleared. -/
theorem convertFrom_export (gen : ℕ → ℚ) :
    ∀ (students : List Student) (i : ℕ),
      (∀ s ∈ students, s.id ≠ ((0 : ℤ) : StudentId) ∧ s.name ≠ "" ∧
          s.avatar ≠ "" ∧ s.rarity ≠ "") →
      convertFrom gen i (exportStudents students)
        = students.map (fun s => { s with isDrawn := false, drawnAt := none }) := by
  intro students
  induction students with
  | nil => intro i _; rfl
  | cons s rest ih =>
      intro i h
      obtain ⟨hid, hname, havatar, hrarity⟩ := h s (List.mem_cons_self s rest)
      have hrest := fun x hx => h x (List.mem_cons_of_mem s hx)
      simp only [exportStudents, List.map_cons, convertFrom, convertRecord,
        if_neg hid, if_neg hname, if_neg havatar, if_neg hrarity, List.map_cons]
      rw [← exportStudents, ih (i + 1) hrest]

/-- C7: importing an exported roster reproduces the roster — same ids,
names, avatars and rarities in the same order — with every entity
undrawn, regardless of its prior drawn state.  (The hypotheses say the
fields are JS-truthy, which the data model guarantees: positive ids,
non-empty strings.) -/
theorem import_export_roundtrip (students : List Student) (gen : ℕ → ℚ)
    (h : ∀ s ∈ students, s.id ≠ ((0 : ℤ) : StudentId) ∧ s.name ≠ "" ∧
        s.avatar ≠ "" ∧ s.rarity ≠ "") :
    importStudents students (.arr ((exportStudents students).map some)) gen
      = (true, students.map (fun s => { s with isDrawn := false, drawnAt := none })) := by
  rw [importStudents, importLoop_all_some gen (exportStudents students) 0 [],
    convertFrom_export gen students 0 h]
  rfl

def c7Roster : List Student :=
  [ { id := ((4 : ℤ) : StudentId), name := "庚", avatar := "x", rarity := "R"
    , isDrawn := true, drawnAt := some 9 }
  , { id := ((2 : ℤ) : StudentId), name := "辛", avatar := "y", rarity := "N"
    , isDrawn := false, drawnAt := none } ]

/-- Witness for C7 at a roster that includes a drawn entity. -/
theorem import_export_roundtrip_witness :
    importStudents c7Roster (.arr ((exportStudents c7Roster).map some)) (fun _ => 0)
      = (true, c7Roster.map (fun s => { s with isDrawn := false, drawnAt := none })) :=
  import_export_roundtrip c7Roster (fun _ => 0) (by decide)

def c8Roster : List Student :=
  [ { id := ((7 : ℤ) : StudentId), name := "壬", avatar := "z", rarity := "N"
    , isDrawn := false, drawnAt := none } ]

/-- Counterexample to C8 as stated: the payload `[null]` is an array but
not a collection of entity-shaped records; the import fails (returns
`false`), yet the roster is not left unchanged — it has already been
cleared. -/
theorem import_failure_counterexample :
    (importStudents c8Roster (.arr [none]) (fun _ => 0)).1 = false ∧
    (importStudents c8Roster (.arr [none]) (fun _ => 0)).2 = [] ∧
    c8Roster ≠ [] := by
  refine ⟨by decide, by decide, by decide⟩

/-- C8 (amended): a payload that is not an array fails with the roster
untouched; but an array payload with a non-record element fails only
after the roster has been cleared and the preceding elements imported —
the roster is left holding the converted prefix, not its prior
contents. -/
theorem import_failure_behaviour :
    (∀ (students : List Student) (gen : ℕ → ℚ),
        importStudents students .notArray gen = (false, students)) ∧
    (∀ (students : List Student) (gen : ℕ → ℚ) (pre : List ImportRecord)
        (rest : List (Option ImportRecord)),
        importStudents students (.arr (pre.map some ++ none :: rest)) gen
          = (false, convertFrom gen 0 pre)) := by
  constructor
  · intro students gen
    rfl
  · intro students gen pre rest
    rw [importStudents, importLoop_null gen pre rest 0 []]
    rfl

end CardDraw

namespace CardDraw

/-- Counterexample to C9 as stated: an import payload with two records
carrying the same id 5 is accepted (`true`) — no validation or rejection
happens — and the resulting roster's ids are not unique. -/
theorem import_no_id_validation_counterexample :
    (importStudents []
        (.arr [ some { id := ((5 : ℤ) : StudentId), name := "甲", avatar := "x"
                     , rarity := "N" }
              , some { id := ((5 : ℤ) : StudentId), name := "乙", avatar := "y"
                     , rarity := "N" } ])
        (fun _ => 0)).1 = true ∧
    (importStudents []
        (.arr [ some { id := ((5 : ℤ) : StudentId), name := "甲", avatar := "x"
                     , rarity := "N" }
              , some { id := ((5 : ℤ) : StudentId), name := "乙", avatar := "y"
                     , rarity := "N" } ])
        (fun _ => 0)).2.map (fun s => s.id)
      = [((5 : ℤ) : StudentId), ((5 : ℤ) : StudentId)] ∧
    ¬ ((importStudents []
        (.arr [ some { id := ((5 : ℤ) : StudentId), name := "甲", avatar := "x"
                     , rarity := "N" }
              , some { id := ((5 : ℤ) : StudentId), name := "乙", avatar := "y"
                     , rarity := "N" } ])
        (fun _ => 0)).2.map (fun s => s.id)).Nodup := by
  refine ⟨by decide, by decide, by decide⟩

/-- The ids `1..49` that default initialization assigns. -/
def defaultIdList : List StudentId :=
  (List.range defaultStudentCount).map (fun i => (((i : ℤ) + 1) : StudentId))

/-- C9 (amended): default initialization does assign unique positive ids
(1..49), but `importStudents` performs no id validation whatsoever: every
null-free array payload is accepted with ids taken as given (falsy ids
defaulted positionally), so duplicate or non-positive ids pass straight
into the roster. -/
theorem id_uniqueness_status :
    (∀ gen : ℕ → ℚ,
        (initializeDefaultData gen).map (fun s => s.id) = defaultIdList) ∧
    defaultIdList.Nodup ∧
    (∀ i ∈ defaultIdList, ((0 : ℤ) : StudentId) < i) ∧
    (∀ (students : List Student) (gen : ℕ → ℚ) (l : List ImportRecord),
        (importStudents students (.arr (l.map some)) gen).1 = true) := by
  refine ⟨?_, by decide, by decide, ?_⟩
  · intro gen
    simp only [initializeDefaultData, defaultIdList, List.map_map]
    rfl
  · intro students gen l
    rw [importStudents, importLoop_all_some gen l 0 []]

/-- Witness for the amended C9. -/
theorem id_uniqueness_status_witness :
    ((initializeDefaultData (fun _ => 0)).map (fun s => s.id) = defaultIdList) ∧
    (((0 : ℤ) : StudentId) < ((1 : ℤ) : StudentId)) ∧
    (importStudents [] (.arr []) (fun _ => 0)).1 = true :=
  ⟨id_uniqueness_status.1 (fun _ => 0),
   id_uniqueness_status.2.2.1 ((1 : ℤ) : StudentId) (by decide),
   id_uniqueness_status.2.2.2 [] (fun _ => 0) []⟩

/-- The initial accumulator is bounded by a `foldl max`. -/
theorem le_foldl_max : ∀ (l : List StudentId) (init : StudentId),
    init ≤ l.foldl max init := by
  intro l
  induction l with
  | nil => intro init; exact le_refl init
  | cons x rest ih =>
      intro init
      exact le_trans (le_max_left init x) (ih (max init x))

/-- Every member is bounded by a `foldl max`. -/
theorem mem_le_foldl_max : ∀ {l : List StudentId} {x : StudentId},
    x ∈ l → ∀ init : StudentId, x ≤ l.foldl max init := by
  intro l
  induction l with
  | nil => intro x hx; cases hx
  | cons y rest ih =>
      intro x hx init
      rcases List.mem_cons.mp hx with rfl | hx2
      · exact le_trans (le_max_right init x) (le_foldl_max rest (max init x))
      · exact ih hx2 (max init y)

/-- Counterexample to C10 as stated: on the empty roster
`Math.max(...[]) + 1` is `-Infinity`, so the new entity's id is `⊥`, not
a positive integer. -/
theorem add_student_empty_counterexample :
    (addStudent [] "新" "" 0).1.id = (⊥ : StudentId) ∧
    ¬ (((0 : ℤ) : StudentId) < (addStudent [] "新" "" 0).1.id) ∧
    (addStudent [] "新" "" 0).1.isDrawn = false ∧
    (addStudent [] "新" "" 0).1.drawnAt = none := by
  refine ⟨by decide, by decide, by decide, by decide⟩

/-- C10 (amended): on every non-empty roster with positive ids,
`addStudent` assigns `max + 1` — a positive id strictly greater than
every existing id, hence unused — and the new entity is undrawn with a
null timestamp, appended at the end of the roster. -/
theorem add_student_next_id (students : List Student) (name avatar : String)
    (u : ℚ) (hne : students ≠ [])
    (hpos : ∀ x ∈ students, ((0 : ℤ) : StudentId) < x.id) :
    ((0 : ℤ) : StudentId) < (addStudent students name avatar u).1.id ∧
    (∀ x ∈ students, x.id < (addStudent students name avatar u).1.id) ∧
    (addStudent students name avatar u).1.isDrawn = false ∧
    (addStudent students name avatar u).1.drawnAt = none ∧
    (addStudent students name avatar u).2
      = students ++ [(addStudent students name avatar u).1] := by
  obtain ⟨s0, hs0⟩ := List.exists_mem_of_ne_nil students hne
  have hsid : s0.id ∈ students.map (fun s => s.id) :=
    List.mem_map_of_mem (fun s => s.id) hs0
  have h0M : ((0 : ℤ) : StudentId)
      < (students.map (fun s => s.id)).foldl max ⊥ :=
    lt_of_lt_of_le (hpos s0 hs0) (mem_le_foldl_max hsid ⊥)
  have hMne : (students.map (fun s => s.id)).foldl max ⊥ ≠ ⊥ :=
    ne_bot_of_gt h0M
  obtain ⟨m, hm⟩ := WithBot.ne_bot_iff_exists.mp hMne
  have hm0 : (0 : ℤ) < m := by
    rw [← hm] at h0M
    exact_mod_cast h0M
  have hplus : (students.map (fun s => s.id)).foldl max ⊥ + 1
      = (((m + 1 : ℤ)) : StudentId) := by
    rw [← hm]
    rfl
  refine ⟨?_, ?_, rfl, rfl, rfl⟩
  · show ((0 : ℤ) : StudentId) < (students.map (fun s => s.id)).foldl max ⊥ + 1
    rw [hplus]
    exact_mod_cast (by omega : (0 : ℤ) < m + 1)
  · intro x hx
    show x.id < (students.map (fun s => s.id)).foldl max ⊥ + 1
    have hxle : x.id ≤ (students.map (fun s => s.id)).foldl max ⊥ :=
      mem_le_foldl_max (List.mem_map_of_mem (fun s => s.id) hx) ⊥
    rw [hplus]
    rw [← hm] at hxle
    calc x.id ≤ ((m : ℤ) : StudentId) := hxle
      _ < (((m + 1 : ℤ)) : StudentId) := by exact_mod_cast (by omega : m < m + 1)

def c10Roster : List Student :=
  [ { id := ((3 : ℤ) : StudentId), name := "癸", avatar := "v", rarity := "N"
    , isDrawn := false, drawnAt := none } ]

def c10Member : Student :=
  { id := ((3 : ℤ) : StudentId), name := "癸", avatar := "v", rarity := "N"
  , isDrawn := false, drawnAt := none }

/-- Witness for the amended C10 at a concrete one-entity roster. -/
theorem add_student_next_id_witness :
    ((0 : ℤ) : StudentId) < (addStudent c10Roster "新" "av" 0).1.id ∧
    c10Member.id < (addStudent c10Roster "新" "av" 0).1.id ∧
    (addStudent c10Roster "新" "av" 0).1.isDrawn = false :=
  ⟨(add_student_next_id c10Roster "新" "av" 0 (by decide) (by decide)).1,
   (add_student_next_id c10Roster "新" "av" 0 (by decide) (by decide)).2.1
     c10Member (by decide),
   (add_student_next_id c10Roster "新" "av" 0 (by decide) (by decide)).2.2.1⟩

end CardDraw
